import Mathlib

/-!
Verification of the Sierpiński-carpet animation core
(`src/main_cli.py` of overstimulation/sierpinski-carpet-animation).

The two pieces of non-trivial logic are

* `create_sierpinski_carpet(order, size)` — a pure function producing an
  N×N integer grid with 1 = filled, 0 = empty, and
* the `animate(frame)` closure inside `create_sierpinski_animation`, which
  synthesizes one animation frame from the precomputed carpet series and a
  fresh random boolean mask.

We embed the code shallowly: grids are `List (List Nat)` built exactly as
the Python comprehensions build the numpy arrays, and the per-frame random
mask (`np.random.random(size=(size, size)) < blend_factor`) is abstracted
as an arbitrary function `Nat → Nat → Bool`, so theorems quantified over
the mask hold for every possible random draw.  The float
`blend_factor = (frame % frames_per_order) / frames_per_order` is only ever
compared with 0 by the code; with `frames_per_order ≥ 1` this comparison is
exactly `frame % frames_per_order > 0`, which is how we embed it.
-/

/-- The per-cell hole test of `create_sierpinski_carpet`: the inner
`for _ in range(order)` loop over `x, y` starting at `i, j`, which marks
the cell empty (and breaks) as soon as `x % 3 == 1 and y % 3 == 1`, and
otherwise divides both coordinates by 3.  `isHole order i j = true` iff
the loop sets `carpet[i, j] = 0`. -/
def isHole : Nat → Nat → Nat → Bool
  | 0, _, _ => false
  | o + 1, x, y => ((x % 3 == 1) && (y % 3 == 1)) || isHole o (x / 3) (y / 3)

/-- Value of cell `(i, j)` of the carpet of the given order:
the grid is initialised with ones and the loop writes 0 at holes. -/
def carpet_cell (order i j : Nat) : Nat :=
  if isHole order i j then 0 else 1

/-- `create_sierpinski_carpet(order, size)`: the `size × size` grid,
row `i`, column `j`.  The `order == 0` early return yields the all-ones
grid, which coincides with the loop doing nothing (`isHole 0` is `false`),
so a single definition covers both paths of the Python function. -/
def create_sierpinski_carpet (order size : Nat) : List (List Nat) :=
  (List.range size).map fun i => (List.range size).map fun j => carpet_cell order i j

/-- Read cell `(i, j)` of a grid (0 as the out-of-range default;
all uses are guarded by bounds hypotheses). -/
def cell (g : List (List Nat)) (i j : Nat) : Nat :=
  (g.getD i []).getD j 0

/-- Total number of frames computed by `create_sierpinski_animation`:
`total_frames = max_order * frames_per_order + frames_per_order`. -/
def total_frames (max_order frames_per_order : Nat) : Nat :=
  max_order * frames_per_order + frames_per_order

/-- Value of cell `(i, j)` of the frame produced by the `animate(frame)`
closure, for carpet series `carpets[o] = create_sierpinski_carpet o size`,
with the fresh per-frame random mask abstracted as `mask`.

Mirrors the code: `current_order = min(frame // frames_per_order, max_order)`;
`next_order = min(current_order + 1, max_order)`; if `current_order ==
max_order` the frame is `carpets[current_order]`; otherwise it starts as a
copy of `carpets[current_order]` and, when `blend_factor > 0`, each cell
where the two carpets differ (`changing_pixels`) and the mask is true takes
the value of `carpets[next_order]`. -/
def frame_cell (max_order frames_per_order frame : Nat)
    (mask : Nat → Nat → Bool) (i j : Nat) : Nat :=
  let current_order := min (frame / frames_per_order) max_order
  let next_order := min (current_order + 1) max_order
  if current_order = max_order then
    carpet_cell current_order i j
  else if 0 < frame % frames_per_order then
    if carpet_cell current_order i j ≠ carpet_cell next_order i j ∧ mask i j then
      carpet_cell next_order i j
    else
      carpet_cell current_order i j
  else
    carpet_cell current_order i j

/-- The full frame grid produced by `animate(frame)`. -/
def animate (max_order frames_per_order size frame : Nat)
    (mask : Nat → Nat → Bool) : List (List Nat) :=
  (List.range size).map fun i =>
    (List.range size).map fun j => frame_cell max_order frames_per_order frame mask i j

/-- The whole synthesized sequence of frames, one fresh mask per frame
(`masks f` is the mask drawn for frame `f`), frame indices
`0 .. total_frames - 1` as passed to `FuncAnimation`. -/
def animation_frames (max_order frames_per_order size : Nat)
    (masks : Nat → Nat → Nat → Bool) : List (List (List Nat)) :=
  (List.range (total_frames max_order frames_per_order)).map fun f =>
    animate max_order frames_per_order size f (masks f)

/-- `changing_pixels` as the code computes it (line 111):
the cells where the current and next carpets differ. -/
def changing_pixels (order i j : Nat) : Prop :=
  carpet_cell order i j ≠ carpet_cell (order + 1) i j

/-- `changing_cells` as the spec words it: cells filled in
`series[current_order]` and empty in `series[next_order]`. -/
def changing_cells_spec (order i j : Nat) : Prop :=
  carpet_cell order i j = 1 ∧ carpet_cell (order + 1) i j = 0

/-! ### Basic lemmas about the cell functions -/

theorem cell_create_sierpinski_carpet (order size i j : Nat)
    (hi : i < size) (hj : j < size) :
    cell (create_sierpinski_carpet order size) i j = carpet_cell order i j := by
  simp [cell, create_sierpinski_carpet, List.getD_eq_getElem?_getD,
    List.getElem?_map, List.getElem?_range, hi, hj]

theorem cell_animate (max_order frames_per_order size frame : Nat)
    (mask : Nat → Nat → Bool) (i j : Nat) (hi : i < size) (hj : j < size) :
    cell (animate max_order frames_per_order size frame mask) i j =
      frame_cell max_order frames_per_order frame mask i j := by
  simp [cell, animate, List.getD_eq_getElem?_getD,
    List.getElem?_map, List.getElem?_range, hi, hj]

/-- 0-based form of the hole characterisation: the loop finds a hole iff
some iteration `m < order` sees both reduced coordinates `≡ 1 (mod 3)`. -/
theorem isHole_iff_exists (order i j : Nat) :
    isHole order i j = true ↔
      ∃ m, m < order ∧ i / 3 ^ m % 3 = 1 ∧ j / 3 ^ m % 3 = 1 := by
  induction order generalizing i j with
  | zero => simp [isHole]
  | succ o ih =>
    simp only [isHole, Bool.or_eq_true, Bool.and_eq_true, beq_iff_eq, ih]
    constructor
    · rintro (⟨hx, hy⟩ | ⟨m, hm, hx, hy⟩)
      · exact ⟨0, Nat.succ_pos o, by simpa using hx, by simpa using hy⟩
      · refine ⟨m + 1, Nat.succ_lt_succ hm, ?_, ?_⟩
        · rwa [pow_succ, Nat.mul_comm, ← Nat.div_div_eq_div_mul]
        · rwa [pow_succ, Nat.mul_comm, ← Nat.div_div_eq_div_mul]
    · rintro ⟨m, hm, hx, hy⟩
      match m with
      | 0 => exact Or.inl ⟨by simpa using hx, by simpa using hy⟩
      | m + 1 =>
        refine Or.inr ⟨m, Nat.lt_of_succ_lt_succ hm, ?_, ?_⟩
        · rwa [pow_succ, Nat.mul_comm, ← Nat.div_div_eq_div_mul] at hx
        · rwa [pow_succ, Nat.mul_comm, ← Nat.div_div_eq_div_mul] at hy

/-- Holes only accumulate: one more loop iteration can only find more holes. -/
theorem isHole_mono (order i j : Nat) (h : isHole order i j = true) :
    isHole (order + 1) i j = true := by
  induction order generalizing i j with
  | zero => simp [isHole] at h
  | succ o ih =>
    have hd : isHole (o + 1 + 1) i j =
        (((i % 3 == 1) && (j % 3 == 1)) || isHole (o + 1) (i / 3) (j / 3)) := rfl
    have hs : isHole (o + 1) i j =
        (((i % 3 == 1) && (j % 3 == 1)) || isHole o (i / 3) (j / 3)) := rfl
    rw [hs, Bool.or_eq_true] at h
    rw [hd, Bool.or_eq_true]
    rcases h with h | h
    · exact Or.inl h
    · exact Or.inr (ih _ _ h)

theorem carpet_cell_eq_zero_iff (order i j : Nat) :
    carpet_cell order i j = 0 ↔ isHole order i j = true := by
  unfold carpet_cell
  by_cases h : isHole order i j <;> simp [h]

theorem carpet_cell_eq_one_iff (order i j : Nat) :
    carpet_cell order i j = 1 ↔ isHole order i j = false := by
  unfold carpet_cell
  by_cases h : isHole order i j <;> simp [h]

theorem isHole_zero_zero (o : Nat) : isHole o 0 0 = false := by
  induction o with
  | zero => rfl
  | succ o ih => simpa [isHole] using ih

/-- Below the base-3 digit depth `d` of both coordinates, iterating the hole
test beyond `d` levels finds nothing new: the reduced coordinates are 0. -/
theorem isHole_stable (d : Nat) : ∀ o i j, i < 3 ^ d → j < 3 ^ d → d ≤ o →
    isHole o i j = isHole d i j := by
  induction d with
  | zero =>
    intro o i j hi hj _
    interval_cases i
    interval_cases j
    simp [isHole_zero_zero]
  | succ d ih =>
    intro o i j hi hj ho
    match o, ho with
    | o + 1, ho =>
      have hi3 : i / 3 < 3 ^ d := by
        rw [Nat.div_lt_iff_lt_mul (by norm_num)]
        calc i < 3 ^ (d + 1) := hi
        _ = 3 ^ d * 3 := by rw [pow_succ]
      have hj3 : j / 3 < 3 ^ d := by
        rw [Nat.div_lt_iff_lt_mul (by norm_num)]
        calc j < 3 ^ (d + 1) := hj
        _ = 3 ^ d * 3 := by rw [pow_succ]
      have hrec := ih o (i / 3) (j / 3) hi3 hj3 (Nat.le_of_succ_le_succ ho)
      show (((i % 3 == 1) && (j % 3 == 1)) || isHole o (i / 3) (j / 3)) =
        (((i % 3 == 1) && (j % 3 == 1)) || isHole d (i / 3) (j / 3))
      rw [hrec]

/-! ### The claims -/

/-- C1: for every `order ≥ 0` and `size ≥ 1`, cell `(i, j)` of
`create_sierpinski_carpet(order, size)` is empty iff some level
`k ∈ [1, order]` has both `(i div 3^(k-1)) mod 3 = 1` and
`(j div 3^(k-1)) mod 3 = 1`; in particular order 0 is entirely filled. -/
theorem C1_cell_empty_characterisation (order size i j : Nat)
    (hsize : 1 ≤ size) (hi : i < size) (hj : j < size) :
    (cell (create_sierpinski_carpet order size) i j = 0 ↔
      ∃ k, 1 ≤ k ∧ k ≤ order ∧ i / 3 ^ (k - 1) % 3 = 1 ∧ j / 3 ^ (k - 1) % 3 = 1)
    ∧ cell (create_sierpinski_carpet 0 size) i j = 1 := by
  constructor
  · rw [cell_create_sierpinski_carpet order size i j hi hj,
      carpet_cell_eq_zero_iff, isHole_iff_exists]
    constructor
    · rintro ⟨m, hm, hx, hy⟩
      exact ⟨m + 1, by omega, by omega, by simpa using hx, by simpa using hy⟩
    · rintro ⟨k, hk1, hk2, hx, hy⟩
      exact ⟨k - 1, by omega, hx, hy⟩
  · rw [cell_create_sierpinski_carpet 0 size i j hi hj]
    simp [carpet_cell, isHole]

theorem C1_witness :
    (cell (create_sierpinski_carpet 1 3) 1 1 = 0 ↔
      ∃ k, 1 ≤ k ∧ k ≤ 1 ∧ 1 / 3 ^ (k - 1) % 3 = 1 ∧ 1 / 3 ^ (k - 1) % 3 = 1)
    ∧ cell (create_sierpinski_carpet 0 3) 1 1 = 1 :=
  C1_cell_empty_characterisation 1 3 1 1 (by decide) (by decide) (by decide)

/-- C2: monotonic nesting — a cell empty at order `k` is empty at order `k + 1`. -/
theorem C2_monotonic_nesting (N k i j : Nat) (hi : i < N) (hj : j < N)
    (h : cell (create_sierpinski_carpet k N) i j = 0) :
    cell (create_sierpinski_carpet (k + 1) N) i j = 0 := by
  rw [cell_create_sierpinski_carpet _ _ _ _ hi hj, carpet_cell_eq_zero_iff] at h ⊢
  exact isHole_mono k i j h

theorem C2_witness :
    cell (create_sierpinski_carpet 2 3) 1 1 = 0 :=
  C2_monotonic_nesting 3 1 1 1 (by decide) (by decide) (by decide)

/-- C3 counterexample: the claim says that for size 9, order 1 the empty
cells are exactly the center 3×3 block (rows/cols 3–5).  On the code,
cell (3, 3) is filled (value 1, not empty) and cell (1, 1) is empty
(value 0, though outside the center block): the code tests
`i % 3 == 1 and j % 3 == 1` at the finest scale on the first iteration,
so order 1 empties the nine sub-block centers, not the coarse center block. -/
theorem C3_counterexample :
    cell (create_sierpinski_carpet 1 9) 3 3 = 1 ∧
    cell (create_sierpinski_carpet 1 9) 1 1 = 0 := by decide

/-- C3 amended: for size 9, order 1 the empty cells of
`create_sierpinski_carpet(1, 9)` are exactly the nine sub-block centers
`(3a+1, 3b+1)` for `a, b ∈ {0, 1, 2}` (equivalently the cells with
`i mod 3 = 1` and `j mod 3 = 1`), and the other 72 cells are filled. -/
theorem C3_amended_order1_size9 (i j : Nat) (hi : i < 9) (hj : j < 9) :
    (cell (create_sierpinski_carpet 1 9) i j = 0 ↔
      ∃ a, a ≤ 2 ∧ ∃ b, b ≤ 2 ∧ i = 3 * a + 1 ∧ j = 3 * b + 1)
    ∧ ((create_sierpinski_carpet 1 9).map fun r => r.count 1).sum = 72 := by
  have hall : ∀ i' < 9, ∀ j' < 9,
      (cell (create_sierpinski_carpet 1 9) i' j' = 0 ↔
        ∃ a, a ≤ 2 ∧ ∃ b, b ≤ 2 ∧ i' = 3 * a + 1 ∧ j' = 3 * b + 1) := by decide
  exact ⟨hall i hi j hj, by decide⟩

theorem C3_amended_witness :
    (cell (create_sierpinski_carpet 1 9) 4 7 = 0 ↔
      ∃ a, a ≤ 2 ∧ ∃ b, b ≤ 2 ∧ 4 = 3 * a + 1 ∧ 7 = 3 * b + 1)
    ∧ ((create_sierpinski_carpet 1 9).map fun r => r.count 1).sum = 72 :=
  C3_amended_order1_size9 4 7 (by decide) (by decide)

/-- C4: for size 9, order 2 the empty cells of
`create_sierpinski_carpet(2, 9)` are exactly the center 3×3 block
(rows 3–5, cols 3–5) together with the sub-block centers `(3a+1, 3b+1)`,
`a, b ∈ {0, 1, 2}`, and there are exactly 17 empty cells out of 81. -/
theorem C4_order2_size9 (i j : Nat) (hi : i < 9) (hj : j < 9) :
    (cell (create_sierpinski_carpet 2 9) i j = 0 ↔
      ((3 ≤ i ∧ i ≤ 5 ∧ 3 ≤ j ∧ j ≤ 5) ∨
        ∃ a, a ≤ 2 ∧ ∃ b, b ≤ 2 ∧ i = 3 * a + 1 ∧ j = 3 * b + 1))
    ∧ ((create_sierpinski_carpet 2 9).map fun r => r.count 0).sum = 17 := by
  have hall : ∀ i' < 9, ∀ j' < 9,
      (cell (create_sierpinski_carpet 2 9) i' j' = 0 ↔
        ((3 ≤ i' ∧ i' ≤ 5 ∧ 3 ≤ j' ∧ j' ≤ 5) ∨
          ∃ a, a ≤ 2 ∧ ∃ b, b ≤ 2 ∧ i' = 3 * a + 1 ∧ j' = 3 * b + 1)) := by decide
  exact ⟨hall i hi j hj, by decide⟩

theorem C4_witness :
    (cell (create_sierpinski_carpet 2 9) 3 4 = 0 ↔
      ((3 ≤ 3 ∧ 3 ≤ 5 ∧ 3 ≤ 4 ∧ 4 ≤ 5) ∨
        ∃ a, a ≤ 2 ∧ ∃ b, b ≤ 2 ∧ 3 = 3 * a + 1 ∧ 4 = 3 * b + 1))
    ∧ ((create_sierpinski_carpet 2 9).map fun r => r.count 0).sum = 17 :=
  C4_order2_size9 3 4 (by decide) (by decide)

/-- C5: the synthesized sequence has exactly `(max_order + 1) *
frames_per_order` frames, whatever masks are drawn. -/
theorem C5_frame_count (max_order frames_per_order size : Nat)
    (masks : Nat → Nat → Nat → Bool) :
    (animation_frames max_order frames_per_order size masks).length =
      (max_order + 1) * frames_per_order := by
  simp only [animation_frames, List.length_map, List.length_range, total_frames]
  ring

/-- Any frame whose index puts `current_order` at `max_order` is exactly
the deepest carpet, for every mask. -/
theorem animate_terminal (max_order frames_per_order size frame : Nat)
    (mask : Nat → Nat → Bool) (hord : max_order ≤ frame / frames_per_order) :
    animate max_order frames_per_order size frame mask =
      create_sierpinski_carpet max_order size := by
  have hmin : min (frame / frames_per_order) max_order = max_order :=
    Nat.min_eq_right hord
  unfold animate create_sierpinski_carpet
  apply List.map_congr_left
  intro i _
  apply List.map_congr_left
  intro j _
  simp [frame_cell, hmin]

/-- C6: terminal hold — the last `frames_per_order` frames (indices
`max_order * frames_per_order` through `(max_order + 1) * frames_per_order
- 1`) all equal `create_sierpinski_carpet(max_order, size)`, regardless of
the random draws. -/
theorem C6_terminal_hold (max_order frames_per_order size frame : Nat)
    (mask : Nat → Nat → Bool) (hP : 1 ≤ frames_per_order)
    (hlo : max_order * frames_per_order ≤ frame)
    (hhi : frame < (max_order + 1) * frames_per_order) :
    animate max_order frames_per_order size frame mask =
      create_sierpinski_carpet max_order size := by
  apply animate_terminal
  rw [Nat.le_div_iff_mul_le hP]
  exact hlo

theorem C6_witness :
    animate 1 2 3 2 (fun _ _ => true) = create_sierpinski_carpet 1 3 :=
  C6_terminal_hold 1 2 3 2 (fun _ _ => true) (by decide) (by decide) (by decide)

/-- Any frame with `blend_factor = 0` (i.e. `frame % frames_per_order = 0`)
equals the current carpet, for every mask. -/
theorem animate_blend_zero (max_order frames_per_order size frame : Nat)
    (mask : Nat → Nat → Bool) (hf : frame % frames_per_order = 0) :
    animate max_order frames_per_order size frame mask =
      create_sierpinski_carpet (min (frame / frames_per_order) max_order) size := by
  unfold animate create_sierpinski_carpet
  apply List.map_congr_left
  intro i _
  apply List.map_congr_left
  intro j _
  simp only [frame_cell, hf]
  split_ifs <;> first | rfl | omega

/-- C7: every frame with `frame mod frames_per_order = 0` equals
`series[current_order]` with `current_order = min(frame div frames_per_order,
max_order)`, for every mask; in particular frame 0 of every run equals
`create_sierpinski_carpet(0, size)`. -/
theorem C7_blend_zero_frames (max_order frames_per_order size frame : Nat)
    (mask mask0 : Nat → Nat → Bool) (hP : 1 ≤ frames_per_order)
    (hf : frame % frames_per_order = 0) :
    animate max_order frames_per_order size frame mask =
      create_sierpinski_carpet (min (frame / frames_per_order) max_order) size
    ∧ animate max_order frames_per_order size 0 mask0 =
      create_sierpinski_carpet 0 size := by
  refine ⟨animate_blend_zero _ _ _ _ _ hf, ?_⟩
  have h0 := animate_blend_zero max_order frames_per_order size 0 mask0
    (Nat.zero_mod frames_per_order)
  simpa [Nat.zero_div] using h0

theorem C7_witness :
    (animate 2 3 9 3 (fun _ _ => true) = create_sierpinski_carpet 1 9)
    ∧ animate 2 3 9 0 (fun _ _ => false) = create_sierpinski_carpet 0 9 :=
  C7_blend_zero_frames 2 3 9 3 (fun _ _ => true) (fun _ _ => false)
    (by decide) (by decide)

/-- C8: in a transition frame (`current_order < max_order`,
`blend_factor > 0`), for every mask the frame cell equals
`series[next_order]` exactly at the cells where the two carpets differ and
the mask is true, and `series[current_order]` everywhere else; in
particular the frame agrees with `series[current_order]` wherever the two
base carpets agree.  The frame is a function of the two base carpets and
the mask alone — `animate` takes no previous frame as input. -/
theorem C8_random_dissolve (max_order frames_per_order size frame : Nat)
    (mask : Nat → Nat → Bool) (i j : Nat)
    (hcur : frame / frames_per_order < max_order)
    (hblend : 0 < frame % frames_per_order)
    (hi : i < size) (hj : j < size) :
    (cell (animate max_order frames_per_order size frame mask) i j =
      if carpet_cell (frame / frames_per_order) i j ≠
          carpet_cell (frame / frames_per_order + 1) i j ∧ mask i j = true then
        carpet_cell (frame / frames_per_order + 1) i j
      else
        carpet_cell (frame / frames_per_order) i j)
    ∧ (carpet_cell (frame / frames_per_order) i j =
        carpet_cell (frame / frames_per_order + 1) i j →
      cell (animate max_order frames_per_order size frame mask) i j =
        cell (create_sierpinski_carpet (frame / frames_per_order) size) i j) := by
  have hmin : min (frame / frames_per_order) max_order =
      frame / frames_per_order := Nat.min_eq_left (Nat.le_of_lt hcur)
  have hnext : min (frame / frames_per_order + 1) max_order =
      frame / frames_per_order + 1 := Nat.min_eq_left hcur
  have hne : ¬ (frame / frames_per_order = max_order) := Nat.ne_of_lt hcur
  have hmain : cell (animate max_order frames_per_order size frame mask) i j =
      if carpet_cell (frame / frames_per_order) i j ≠
          carpet_cell (frame / frames_per_order + 1) i j ∧ mask i j = true then
        carpet_cell (frame / frames_per_order + 1) i j
      else
        carpet_cell (frame / frames_per_order) i j := by
    rw [cell_animate _ _ _ _ _ _ _ hi hj]
    simp only [frame_cell, hmin, hnext, hblend, if_neg hne, if_pos hblend, if_true]
  refine ⟨hmain, fun hagree => ?_⟩
  rw [hmain, cell_create_sierpinski_carpet _ _ _ _ hi hj, if_neg]
  intro hcond
  exact hcond.1 hagree

theorem C8_witness :
    (cell (animate 1 2 3 1 (fun _ _ => true)) 1 1 =
      if carpet_cell 0 1 1 ≠ carpet_cell 1 1 1 ∧ (fun (_ _ : Nat) => true) 1 1 = true then
        carpet_cell 1 1 1
      else
        carpet_cell 0 1 1)
    ∧ (carpet_cell 0 1 1 = carpet_cell 1 1 1 →
      cell (animate 1 2 3 1 (fun _ _ => true)) 1 1 =
        cell (create_sierpinski_carpet 0 3) 1 1) :=
  C8_random_dissolve 1 2 3 1 (fun _ _ => true) 1 1
    (by decide) (by decide) (by decide) (by decide)

/-- C9: the code's `changing_pixels = (current_carpet != next_carpet)`
coincides with the spec's `changing_cells` (filled at `current_order`,
empty at `next_order = current_order + 1`).  The monotonic-nesting
precondition of the claim holds for the actual carpet series
(`isHole_mono`), so the equivalence is unconditional here. -/
theorem C9_changing_cells_equivalence (order i j : Nat) :
    changing_pixels order i j ↔ changing_cells_spec order i j := by
  unfold changing_pixels changing_cells_spec
  by_cases h1 : isHole order i j = true
  · have h2 : isHole (order + 1) i j = true := isHole_mono order i j h1
    simp [carpet_cell, h1, h2]
  · by_cases h2 : isHole (order + 1) i j = true <;>
      simp [carpet_cell, h1, h2]

/-- C10: saturation — once the order reaches the base-3 digit depth
`⌈log₃ size⌉` of the grid, raising it further changes nothing. -/
theorem C10_saturation (N k k' : Nat)
    (hk : Nat.clog 3 N ≤ k) (hk' : Nat.clog 3 N ≤ k') :
    create_sierpinski_carpet k N = create_sierpinski_carpet k' N := by
  have hN : N ≤ 3 ^ Nat.clog 3 N := Nat.le_pow_clog (by norm_num) N
  unfold create_sierpinski_carpet
  apply List.map_congr_left
  intro i hi
  apply List.map_congr_left
  intro j hj
  have hi' : i < 3 ^ Nat.clog 3 N :=
    Nat.lt_of_lt_of_le (List.mem_range.mp hi) hN
  have hj' : j < 3 ^ Nat.clog 3 N :=
    Nat.lt_of_lt_of_le (List.mem_range.mp hj) hN
  unfold carpet_cell
  rw [isHole_stable (Nat.clog 3 N) k i j hi' hj' hk,
    isHole_stable (Nat.clog 3 N) k' i j hi' hj' hk']

theorem C10_witness :
    create_sierpinski_carpet 2 4 = create_sierpinski_carpet 5 4 :=
  C10_saturation 4 2 5
    ((Nat.le_pow_iff_clog_le (by decide)).mp (by decide))
    ((Nat.le_pow_iff_clog_le (by decide)).mp (by decide))
